import Mathlib

/-!
A shallow embedding of the `wf-dbg` repaint-loop visualizer core
(`src/main.rs`, `src/ipc.rs`, `src/message.rs`) and proofs about it.

Machine integers: timestamps are Rust `u64`; where the source subtracts
`u64` values we model the release-mode wrapping subtraction explicitly as
`sub64` over `Nat`.  Float arithmetic of the projection (`f64`) is
modelled over `ℚ`.  The iced render `Cache` field (`drawn`) holds no
observable data relevant to the buffers/tables and is omitted from the
state.
-/

namespace WfDbg

/-- `2 ^ 64`, the modulus of Rust's `u64`. -/
def u64size : Nat := 2 ^ 64

/-- Wrapping (release-mode) subtraction of two `u64` values represented
as naturals `< u64size`. -/
def sub64 (a b : Nat) : Nat := (u64size + a - b) % u64size

/-- `Shape` from `src/main.rs` (lines 20-27): drawable timeline geometry. -/
inductive Shape where
  | FrameBoundary : Nat → Nat → Shape
  | RepaintRegion : Nat → Nat → Nat → Shape
  | Commit : Nat → Nat → Shape
deriving DecidableEq

/-- `Shape::left` (main.rs lines 30-36). -/
def Shape.left : Shape → Nat
  | .FrameBoundary l _ => l
  | .RepaintRegion l _ _ => l
  | .Commit l _ => l

/-- `Shape::right` (main.rs lines 38-44). -/
def Shape.right : Shape → Nat
  | .FrameBoundary r _ => r
  | .RepaintRegion _ r _ => r
  | .Commit r _ => r

/-- `MAX_TIME_PERIOD` (main.rs line 48): freeze threshold `T`, one second
in nanoseconds. -/
def MAX_TIME_PERIOD : Nat := 1 * 1000000000

/-- `VISUALIZATION_SCALE` (main.rs line 51): time-domain width of the
viewport, modelled over `ℚ`. -/
def VISUALIZATION_SCALE : ℚ := 120 * 1000000

/-- `OutputState` (main.rs lines 56-60). -/
structure OutputState where
  name : String
  last_repaint_start : Nat
deriving DecidableEq

/-- `SurfaceState` (main.rs lines 62-66). -/
structure SurfaceState where
  index : Nat
  output_idx : Nat
deriving DecidableEq

/-- The aggregator state `RepaintLoop` (main.rs lines 68-76).
`shapes` is the frozen (displayed) buffer, `pending_shapes` the live one.
`index` is the slider scroll offset (`f64` in the source, here `ℚ`). -/
structure RepaintLoop where
  shapes : List Shape
  pending_shapes : List Shape
  outputs : List OutputState
  surfaces : List SurfaceState
  index : ℚ
  do_periodic_refresh : Bool
deriving DecidableEq

/-- `Message` from `src/message.rs`. -/
inductive Message where
  | SurfaceCommit : Nat → String → Nat → Message
  | FrameStart : String → Nat → Message
  | FrameRepaint : String → Nat → Message
  | FrameRepaintDone : String → Nat → Message
  | Refresh : Message
  | SliderChanged : ℚ → Message
  | PeriodicRefreshChanged : Bool → Message
deriving DecidableEq

/-- `RepaintLoop::new` (main.rs lines 100-110). -/
def RepaintLoop.new : RepaintLoop :=
  { shapes := [], pending_shapes := [], outputs := [], surfaces := [],
    index := 0, do_periodic_refresh := false }

/-- Rust's `Iterator::position`: index of the first element satisfying
`p`, if any. -/
def position {α : Type} (p : α → Bool) : List α → Option Nat
  | [] => none
  | a :: l => if p a then some 0 else (position p l).map (fun n => n + 1)

/-- `RepaintLoop::output_idx` (main.rs lines 112-122): look up an output
by name, appending a fresh `OutputState` when absent; returns the index
and the updated state. -/
def RepaintLoop.output_idx (s : RepaintLoop) (output : String) : Nat × RepaintLoop :=
  match position (fun x => output == x.name) s.outputs with
  | some i => (i, s)
  | none => (s.outputs.length,
      { s with outputs := s.outputs ++ [{ name := output, last_repaint_start := 0 }] })

/-- `RepaintLoop::surface_idx` (main.rs lines 124-135): look up a surface
by id, appending a fresh `SurfaceState` (resolving the output first) when
absent. -/
def RepaintLoop.surface_idx (s : RepaintLoop) (surface : Nat) (output : String) :
    Nat × RepaintLoop :=
  match position (fun x => x.index == surface) s.surfaces with
  | some i => (i, s)
  | none =>
    let r := s.output_idx output
    (r.2.surfaces.length,
      { r.2 with surfaces := r.2.surfaces ++ [{ index := surface, output_idx := r.1 }] })

/-- `left()` of the first pending shape, `0` when empty
(main.rs line 138). -/
def RepaintLoop.pendingFirstLeft (s : RepaintLoop) : Nat :=
  match s.pending_shapes.head? with
  | some sh => sh.left
  | none => 0

/-- `right()` of the last pending shape, `0` when empty
(main.rs line 139). -/
def RepaintLoop.pendingLastRight (s : RepaintLoop) : Nat :=
  match s.pending_shapes.getLast? with
  | some sh => sh.right
  | none => 0

/-- `RepaintLoop::current_pending_window` (main.rs lines 137-141):
`lst - fst` in `u64` arithmetic. -/
def RepaintLoop.current_pending_window (s : RepaintLoop) : Nat :=
  sub64 s.pendingLastRight s.pendingFirstLeft

/-- `self.outputs[idx].last_repaint_start = time` (main.rs line 152):
in-place field update at a list index. -/
def setLastRepaintStart : List OutputState → Nat → Nat → List OutputState
  | [], _, _ => []
  | o :: rest, 0, t => { o with last_repaint_start := t } :: rest
  | o :: rest, Nat.succ n, t => o :: setLastRepaintStart rest n t

/-- `self.outputs[idx].last_repaint_start` (main.rs line 157) as a list
read; the index produced by `output_idx` is always in range, so the
out-of-range default `0` is never hit. -/
def lastRepaintStartAt (outputs : List OutputState) (i : Nat) : Nat :=
  match outputs[i]? with
  | some o => o.last_repaint_start
  | none => 0

/-- The `match message` body of `RepaintLoop::handle_message`
(main.rs lines 144-179), before the freeze check. -/
def RepaintLoop.apply_event (s : RepaintLoop) (message : Message) : RepaintLoop :=
  match message with
  | .FrameStart output time =>
    let r := s.output_idx output
    { r.2 with pending_shapes := r.2.pending_shapes ++ [Shape.FrameBoundary time r.1] }
  | .FrameRepaint output time =>
    let r := s.output_idx output
    { r.2 with outputs := setLastRepaintStart r.2.outputs r.1 time }
  | .FrameRepaintDone output time =>
    let r := s.output_idx output
    let start := lastRepaintStartAt r.2.outputs r.1
    { r.2 with pending_shapes := r.2.pending_shapes ++ [Shape.RepaintRegion start time r.1] }
  | .SurfaceCommit surface output time =>
    let r := s.surface_idx surface output
    { r.2 with pending_shapes := r.2.pending_shapes ++ [Shape.Commit time r.1] }
  | .Refresh => { s with shapes := [], pending_shapes := [] }
  | .SliderChanged i => { s with index := i }
  | .PeriodicRefreshChanged v => { s with do_periodic_refresh := v }

/-- `RepaintLoop::handle_message` (main.rs lines 143-185): process one
message, then freeze (swap pending into `shapes`) exactly when `shapes`
is empty and the pending window reached `MAX_TIME_PERIOD`. -/
def RepaintLoop.handle_message (s : RepaintLoop) (message : Message) : RepaintLoop :=
  let t := s.apply_event message
  if t.shapes = [] ∧ MAX_TIME_PERIOD ≤ t.current_pending_window then
    { t with shapes := t.pending_shapes, pending_shapes := t.shapes }
  else t

/-- Fold `handle_message` over a message sequence. -/
def RepaintLoop.process (s : RepaintLoop) : List Message → RepaintLoop
  | [] => s
  | m :: rest => (s.handle_message m).process rest

/-- The buffer chosen for rendering (main.rs lines 272-276): pending when
`shapes` is empty, otherwise the frozen `shapes`. -/
def RepaintLoop.drawBuffer (s : RepaintLoop) : List Shape :=
  if s.shapes = [] then s.pending_shapes else s.shapes

/-- `begin` of the draw closure (main.rs line 278): `left()` of the first
shape of the chosen buffer, `0` when empty. -/
def bufferBegin (shapes : List Shape) : Nat :=
  match shapes.head? with
  | some sh => sh.left
  | none => 0

/-- The `find_x` closure (main.rs lines 286-291): project a timestamp to
a pixel x-coordinate.  The source computes `(*x - begin)` in `u64`
(wrapping) and only then converts to float; the float arithmetic itself
is modelled exactly over `ℚ`.  `left_boundary` is the slider offset
`self.index`, `width` the canvas width. -/
def find_x (begin : Nat) (left_boundary width : ℚ) (x : Nat) : ℚ :=
  let relative : ℚ := (sub64 x begin : ℚ) - left_boundary
  relative / VISUALIZATION_SCALE * width

/-- The `visible` closure (main.rs lines 293-295). -/
def visible (width x : ℚ) : Bool :=
  decide (0 ≤ x) && decide (x ≤ width)

/-- Whether the draw loop (main.rs lines 339-402) draws a given shape
rather than `continue`-skipping it: a `FrameBoundary` or `Commit` is
drawn when its single projected endpoint is visible, a `RepaintRegion`
when at least one of its projected endpoints is. -/
def shapeDrawn (begin : Nat) (left_boundary width : ℚ) : Shape → Bool
  | .FrameBoundary x _ => visible width (find_x begin left_boundary width x)
  | .RepaintRegion l r _ =>
      visible width (find_x begin left_boundary width l) ||
      visible width (find_x begin left_boundary width r)
  | .Commit x _ => visible width (find_x begin left_boundary width x)

/-- The domain events whose handler appends a shape to the pending
buffer (main.rs lines 145-163): `FrameStart`, `FrameRepaintDone`
(repaint end) and `SurfaceCommit`. -/
def Message.appendsShape : Message → Bool
  | .FrameStart _ _ => true
  | .FrameRepaintDone _ _ => true
  | .SurfaceCommit _ _ _ => true
  | _ => false

/-- One decoded wire frame as seen by `src/ipc.rs`: the JSON fields the
decoder reads.  `object` is the stringified `object` field, `objectId`
its integer reading (used only for `surface-commit`). -/
structure Frame where
  category : String
  event : String
  timestamp : Nat
  object : String
  objectId : Nat
  output : String
deriving DecidableEq

/-- Outcome of decoding one frame. -/
inductive DecodeResult where
  | skip
  | fatal
  | ok : Message → DecodeResult
deriving DecidableEq

/-- The decoding logic of `src/ipc.rs`: `get_next_repait_loop_msg`
(lines 27-31) skips any frame whose `category` is not `"repaint-loop"`,
and `stream` (lines 69-79) dispatches on the `event` tag, failing
fatally (`panic` in the source) on an unknown tag. -/
def decodeFrame (f : Frame) : DecodeResult :=
  if f.category ≠ "repaint-loop" then .skip
  else match f.event with
    | "start-paint" => .ok (.FrameRepaint f.object f.timestamp)
    | "end-paint" => .ok (.FrameRepaintDone f.object f.timestamp)
    | "start-frame" => .ok (.FrameStart f.object f.timestamp)
    | "surface-commit" => .ok (.SurfaceCommit f.objectId f.output f.timestamp)
    | _ => .fatal

/-- The event tags `src/ipc.rs` knows (lines 70-77). -/
def knownEvents : List String :=
  ["start-paint", "end-paint", "start-frame", "surface-commit"]

/-- The ingestion loop over a sequence of frames: skipped frames are
dropped and the loop continues; a fatal decode ends the stream at once —
the failing frame and everything after it produce no events.  Returns
the emitted messages and whether a fatal error occurred. -/
def ingest : List Frame → List Message × Bool
  | [] => ([], false)
  | f :: rest =>
    match decodeFrame f with
    | .skip => ingest rest
    | .fatal => ([], true)
    | .ok m =>
      let p := ingest rest
      (m :: p.1, p.2)

/-- A repaint-loop frame with an unknown event tag (Scenario D). -/
def unknownFrame : Frame :=
  { category := "repaint-loop", event := "unknown-thing", timestamp := 0,
    object := "A", objectId := 0, output := "A" }

/-- A frame of a different category, to be skipped. -/
def otherCategoryFrame : Frame :=
  { category := "stdout", event := "start-frame", timestamp := 0,
    object := "A", objectId := 0, output := "A" }

/-- A well-formed start-frame frame. -/
def startFrameFrame : Frame :=
  { category := "repaint-loop", event := "start-frame", timestamp := 1,
    object := "A", objectId := 0, output := "A" }

/-- A message history that freezes one window and then builds a pending
buffer whose first shape starts at 5000 while its last (a degenerate
repaint region on output "B") ends at 100. -/
def invertedTrace : List Message :=
  [Message.FrameStart "A" 0, Message.FrameStart "A" 1000000000,
   Message.FrameStart "A" 5000, Message.FrameRepaintDone "B" 100]

/-- A short history whose live pending buffer starts at 5000 yet
contains a degenerate repaint region `[0, 6000]` (no repaint-start was
ever seen on output "B"). -/
def degenerateTrace : List Message :=
  [Message.FrameStart "A" 5000, Message.FrameRepaintDone "B" 6000]

/-! ### Helper lemmas -/

theorem output_idx_shapes (s : RepaintLoop) (o : String) :
    (s.output_idx o).2.shapes = s.shapes := by
  unfold RepaintLoop.output_idx
  cases position (fun x => o == x.name) s.outputs <;> rfl

theorem output_idx_pending (s : RepaintLoop) (o : String) :
    (s.output_idx o).2.pending_shapes = s.pending_shapes := by
  unfold RepaintLoop.output_idx
  cases position (fun x => o == x.name) s.outputs <;> rfl

theorem output_idx_surfaces (s : RepaintLoop) (o : String) :
    (s.output_idx o).2.surfaces = s.surfaces := by
  unfold RepaintLoop.output_idx
  cases position (fun x => o == x.name) s.outputs <;> rfl

theorem surface_idx_shapes (s : RepaintLoop) (id : Nat) (o : String) :
    (s.surface_idx id o).2.shapes = s.shapes := by
  unfold RepaintLoop.surface_idx
  cases position (fun x => x.index == id) s.surfaces
  · simp [output_idx_shapes]
  · rfl

theorem surface_idx_pending (s : RepaintLoop) (id : Nat) (o : String) :
    (s.surface_idx id o).2.pending_shapes = s.pending_shapes := by
  unfold RepaintLoop.surface_idx
  cases position (fun x => x.index == id) s.surfaces
  · simp [output_idx_pending]
  · rfl

theorem apply_event_shapes_of_ne (s : RepaintLoop) (m : Message)
    (hm : m ≠ .Refresh) : (s.apply_event m).shapes = s.shapes := by
  cases m <;> simp [RepaintLoop.apply_event, output_idx_shapes, surface_idx_shapes] at hm ⊢

theorem apply_event_shapes_empty (s : RepaintLoop) (m : Message)
    (h : s.shapes = []) : (s.apply_event m).shapes = [] := by
  cases m <;>
    simp [RepaintLoop.apply_event, output_idx_shapes, surface_idx_shapes, h]

theorem handle_eq_apply_of_shapes_ne (s : RepaintLoop) (m : Message)
    (h : (s.apply_event m).shapes ≠ []) :
    s.handle_message m = s.apply_event m := by
  simp only [RepaintLoop.handle_message]
  rw [if_neg]
  rintro ⟨h1, -⟩
  exact h h1

theorem handle_shapes_of_frozen (s : RepaintLoop) (m : Message)
    (h : s.shapes ≠ []) (hm : m ≠ .Refresh) :
    s.handle_message m = s.apply_event m ∧ (s.handle_message m).shapes = s.shapes := by
  have ha := apply_event_shapes_of_ne s m hm
  have he := handle_eq_apply_of_shapes_ne s m (by rw [ha]; exact h)
  exact ⟨he, by rw [he, ha]⟩

theorem process_shapes_of_frozen (ms : List Message) (s : RepaintLoop)
    (h : s.shapes ≠ []) (hms : Message.Refresh ∉ ms) :
    (s.process ms).shapes = s.shapes := by
  induction ms generalizing s with
  | nil => rfl
  | cons m rest ih =>
    have hm : m ≠ Message.Refresh := fun he => hms (he ▸ List.mem_cons_self m rest)
    have hrest : Message.Refresh ∉ rest := fun hr => hms (List.mem_cons_of_mem m hr)
    have hstep := (handle_shapes_of_frozen s m h hm).2
    calc ((s.handle_message m).process rest).shapes
        = (s.handle_message m).shapes := ih _ (by rw [hstep]; exact h) hrest
      _ = s.shapes := hstep

theorem apply_event_append (s : RepaintLoop) (m : Message)
    (h : m.appendsShape = true) :
    ∃ sh, (s.apply_event m).pending_shapes = s.pending_shapes ++ [sh] := by
  cases m <;> simp [Message.appendsShape] at h
  case FrameStart o t =>
    exact ⟨Shape.FrameBoundary t (s.output_idx o).1,
      by simp [RepaintLoop.apply_event, output_idx_pending]⟩
  case FrameRepaintDone o t =>
    exact ⟨Shape.RepaintRegion
        (lastRepaintStartAt (s.output_idx o).2.outputs (s.output_idx o).1) t
        (s.output_idx o).1,
      by simp [RepaintLoop.apply_event, output_idx_pending]⟩
  case SurfaceCommit id o t =>
    exact ⟨Shape.Commit t (s.surface_idx id o).1,
      by simp [RepaintLoop.apply_event, surface_idx_pending]⟩

theorem appendsShape_ne_refresh (m : Message) (h : m.appendsShape = true) :
    m ≠ .Refresh := by
  cases m <;> simp [Message.appendsShape] at h ⊢

theorem refresh_eq (s : RepaintLoop) :
    s.handle_message .Refresh = { s with shapes := [], pending_shapes := [] } := by
  simp only [RepaintLoop.handle_message, RepaintLoop.apply_event]
  rw [if_neg]
  rintro ⟨-, hle⟩
  norm_num [RepaintLoop.current_pending_window, RepaintLoop.pendingFirstLeft,
    RepaintLoop.pendingLastRight, sub64, u64size, MAX_TIME_PERIOD] at hle

theorem position_eq_none_iff {α : Type} (p : α → Bool) (l : List α) :
    position p l = none ↔ ∀ a ∈ l, p a = false := by
  induction l with
  | nil => simp [position]
  | cons b l ih =>
    by_cases hb : p b = true
    · simp [position, hb]
    · simp only [Bool.not_eq_true] at hb
      simp [position, hb, ih]

theorem position_append_singleton_of_none {α : Type} (p : α → Bool) (l : List α)
    (h : position p l = none) (a : α) :
    position p (l ++ [a]) = if p a then some l.length else none := by
  induction l with
  | nil => simp [position]
  | cons b l ih =>
    have hb : p b = false ∧ position p l = none := by
      by_cases hpb : p b = true
      · simp [position, hpb] at h
      · simp only [Bool.not_eq_true] at hpb
        refine ⟨hpb, ?_⟩
        simpa [position, hpb] using h
    rw [List.cons_append]
    simp only [position, hb.1, Bool.false_eq_true, if_false, ih hb.2]
    by_cases hpa : p a = true
    · simp [hpa]
    · simp [hpa]

theorem surface_idx_eq_of_position_some (s : RepaintLoop) (id : Nat) (out : String)
    (i : Nat) (h : position (fun x => x.index == id) s.surfaces = some i) :
    s.surface_idx id out = (i, s) := by
  unfold RepaintLoop.surface_idx
  rw [h]

theorem surfaces_pred_none (s : RepaintLoop) (id : Nat)
    (h : ∀ st ∈ s.surfaces, st.index ≠ id) :
    position (fun x => x.index == id) s.surfaces = none :=
  (position_eq_none_iff _ _).mpr (fun a ha => by simpa using h a ha)

theorem outputs_pred_none (s : RepaintLoop) (out : String)
    (h : ∀ o ∈ s.outputs, o.name ≠ out) :
    position (fun x => out == x.name) s.outputs = none :=
  (position_eq_none_iff _ _).mpr (fun a ha => by simpa using (h a ha).symm)

theorem output_idx_of_present (s : RepaintLoop) (out : String)
    (h : ∃ o ∈ s.outputs, o.name = out) :
    (s.output_idx out).2 = s := by
  obtain ⟨o, ho, hname⟩ := h
  unfold RepaintLoop.output_idx
  cases hpos : position (fun x => out == x.name) s.outputs with
  | some i => rfl
  | none =>
    rw [position_eq_none_iff] at hpos
    have hfalse := hpos o ho
    simp [hname] at hfalse

theorem output_idx_of_absent (s : RepaintLoop) (out : String)
    (h : ∀ o ∈ s.outputs, o.name ≠ out) :
    (s.output_idx out).2.outputs
      = s.outputs ++ [{ name := out, last_repaint_start := 0 }] := by
  have hnone := outputs_pred_none s out h
  simp [RepaintLoop.output_idx, hnone]

/-! ### Claims -/

/-- C1: starting from a state with an empty frozen buffer, processing one
message swaps the whole pending buffer (the snapshot after the event's
own effect) into the frozen buffer, leaving an empty pending buffer,
exactly when the pending window reaches `MAX_TIME_PERIOD`; otherwise
the state is exactly the event's effect, with no swap. -/
theorem freeze_swap_iff (s : RepaintLoop) (m : Message) (h : s.shapes = []) :
    (MAX_TIME_PERIOD ≤ (s.apply_event m).current_pending_window →
      s.handle_message m =
        { s.apply_event m with
            shapes := (s.apply_event m).pending_shapes, pending_shapes := [] }) ∧
    ((s.apply_event m).current_pending_window < MAX_TIME_PERIOD →
      s.handle_message m = s.apply_event m) := by
  have hs := apply_event_shapes_empty s m h
  constructor
  · intro hw
    simp only [RepaintLoop.handle_message]
    rw [if_pos ⟨hs, hw⟩, hs]
  · intro hw
    simp only [RepaintLoop.handle_message]
    rw [if_neg]
    rintro ⟨-, hle⟩
    exact absurd hle (not_le.mpr hw)

/-- Witness for C1 at a concrete input: the initial state and a
`FrameRepaintDone` whose degenerate region already spans two seconds,
which does trigger the swap. -/
theorem freeze_swap_iff_witness :
    (MAX_TIME_PERIOD ≤
        (RepaintLoop.new.apply_event (Message.FrameRepaintDone "A" 2000000000)).current_pending_window →
      RepaintLoop.new.handle_message (Message.FrameRepaintDone "A" 2000000000) =
        { RepaintLoop.new.apply_event (Message.FrameRepaintDone "A" 2000000000) with
            shapes := (RepaintLoop.new.apply_event (Message.FrameRepaintDone "A" 2000000000)).pending_shapes,
            pending_shapes := [] }) ∧
    ((RepaintLoop.new.apply_event (Message.FrameRepaintDone "A" 2000000000)).current_pending_window <
        MAX_TIME_PERIOD →
      RepaintLoop.new.handle_message (Message.FrameRepaintDone "A" 2000000000) =
        RepaintLoop.new.apply_event (Message.FrameRepaintDone "A" 2000000000)) :=
  freeze_swap_iff RepaintLoop.new (Message.FrameRepaintDone "A" 2000000000) rfl

/-- C2: once the frozen buffer is non-empty, any sequence of messages
containing no `Refresh` leaves it exactly as it was, and each of the
shape-producing domain events (`FrameStart`, `FrameRepaintDone`,
`SurfaceCommit`) appends exactly one shape to the pending buffer while
leaving the frozen buffer untouched. -/
theorem frozen_immutable (s : RepaintLoop) (h : s.shapes ≠ [])
    (ms : List Message) (hms : Message.Refresh ∉ ms) :
    (s.process ms).shapes = s.shapes ∧
    ∀ m, m.appendsShape = true → ∃ sh,
      ((s.process ms).handle_message m).shapes = s.shapes ∧
      ((s.process ms).handle_message m).pending_shapes
        = (s.process ms).pending_shapes ++ [sh] := by
  have hp := process_shapes_of_frozen ms s h hms
  refine ⟨hp, fun m hm => ?_⟩
  have hne : (s.process ms).shapes ≠ [] := by rw [hp]; exact h
  obtain ⟨sh, hsh⟩ := apply_event_append (s.process ms) m hm
  obtain ⟨heq, hshapes⟩ :=
    handle_shapes_of_frozen (s.process ms) m hne (appendsShape_ne_refresh m hm)
  exact ⟨sh, by rw [hshapes, hp], by rw [heq, hsh]⟩

/-- Witness for C2 at a concrete input: a state frozen by a two-second
window, then a `SurfaceCommit` and a slider move, neither of which may
touch the frozen buffer. -/
theorem frozen_immutable_witness :
    ((RepaintLoop.new.process [Message.FrameStart "A" 0, Message.FrameStart "A" 2000000000]).process
        [Message.SurfaceCommit 42 "A" 5, Message.SliderChanged 1]).shapes
      = (RepaintLoop.new.process [Message.FrameStart "A" 0, Message.FrameStart "A" 2000000000]).shapes ∧
    ∀ m, m.appendsShape = true → ∃ sh,
      (((RepaintLoop.new.process [Message.FrameStart "A" 0, Message.FrameStart "A" 2000000000]).process
          [Message.SurfaceCommit 42 "A" 5, Message.SliderChanged 1]).handle_message m).shapes
        = (RepaintLoop.new.process [Message.FrameStart "A" 0, Message.FrameStart "A" 2000000000]).shapes ∧
      (((RepaintLoop.new.process [Message.FrameStart "A" 0, Message.FrameStart "A" 2000000000]).process
          [Message.SurfaceCommit 42 "A" 5, Message.SliderChanged 1]).handle_message m).pending_shapes
        = ((RepaintLoop.new.process [Message.FrameStart "A" 0, Message.FrameStart "A" 2000000000]).process
            [Message.SurfaceCommit 42 "A" 5, Message.SliderChanged 1]).pending_shapes ++ [sh] :=
  frozen_immutable (RepaintLoop.new.process [Message.FrameStart "A" 0, Message.FrameStart "A" 2000000000])
    (by decide)
    [Message.SurfaceCommit 42 "A" 5, Message.SliderChanged 1]
    (by decide)

/-- C3: `Refresh` empties both buffers, and refreshing twice is the same
as refreshing once. -/
theorem refresh_resets_and_idempotent (s : RepaintLoop) :
    (s.handle_message .Refresh).shapes = [] ∧
    (s.handle_message .Refresh).pending_shapes = [] ∧
    (s.handle_message .Refresh).handle_message .Refresh = s.handle_message .Refresh := by
  refine ⟨?_, ?_, ?_⟩ <;> simp [refresh_eq]

/-- C4: for a surface id absent from the surface table, one `surface_idx`
call appends exactly one `SurfaceState` (and a new `OutputState` exactly
when the output name is absent); for a present id it changes nothing;
the call is idempotent (a repeated call returns the same index and the
same state); and the surface table only ever grows by appending, so
indices once assigned never change or get reused. -/
theorem surface_idx_spec (s : RepaintLoop) (id : Nat) (out : String) :
    ((∀ st ∈ s.surfaces, st.index ≠ id) →
      ((s.surface_idx id out).2.surfaces
          = s.surfaces ++ [{ index := id, output_idx := (s.output_idx out).1 }]) ∧
      ((∃ o ∈ s.outputs, o.name = out) → (s.surface_idx id out).2.outputs = s.outputs) ∧
      ((∀ o ∈ s.outputs, o.name ≠ out) →
        (s.surface_idx id out).2.outputs
          = s.outputs ++ [{ name := out, last_repaint_start := 0 }])) ∧
    ((∃ st ∈ s.surfaces, st.index = id) → (s.surface_idx id out).2 = s) ∧
    ((s.surface_idx id out).2.surface_idx id out = s.surface_idx id out) ∧
    (∃ tail, (s.surface_idx id out).2.surfaces = s.surfaces ++ tail) := by
  cases hpos : position (fun x => x.index == id) s.surfaces with
  | some i =>
    have hs' : s.surface_idx id out = (i, s) := by
      simp [RepaintLoop.surface_idx, hpos]
    refine ⟨fun h => ?_, fun _ => by rw [hs'], by rw [hs']; exact hs',
      ⟨[], by rw [hs']; simp⟩⟩
    rw [surfaces_pred_none s id h] at hpos
    cases hpos
  | none =>
    have hsurf : (s.output_idx out).2.surfaces = s.surfaces := output_idx_surfaces s out
    have hs' : s.surface_idx id out =
        ((s.output_idx out).2.surfaces.length,
         { (s.output_idx out).2 with
             surfaces := (s.output_idx out).2.surfaces
               ++ [{ index := id, output_idx := (s.output_idx out).1 }] }) := by
      simp [RepaintLoop.surface_idx, hpos]
    refine ⟨fun _ => ⟨?_, fun ho => ?_, fun ho => ?_⟩, fun hex => ?_, ?_, ?_⟩
    · rw [hs']
      simp [hsurf]
    · rw [hs']
      simp only
      rw [output_idx_of_present s out ho]
    · rw [hs']
      simp only
      exact output_idx_of_absent s out ho
    · obtain ⟨st, hst, hid⟩ := hex
      rw [position_eq_none_iff] at hpos
      have hfalse := hpos st hst
      simp [hid] at hfalse
    · have hpos2 : position (fun x => x.index == id) (s.surface_idx id out).2.surfaces
          = some s.surfaces.length := by
        rw [hs']
        simp only
        rw [hsurf, position_append_singleton_of_none _ _ hpos]
        simp
      have hfst : (s.surface_idx id out).1 = s.surfaces.length := by
        rw [hs', hsurf]
      rw [surface_idx_eq_of_position_some (s.surface_idx id out).2 id out
        s.surfaces.length hpos2]
      exact Prod.ext hfst.symm rfl
    · exact ⟨[{ index := id, output_idx := (s.output_idx out).1 }], by rw [hs']; simp [hsurf]⟩

theorem sub64_eq_of_le (a b : Nat) (hba : b ≤ a) (ha : a < u64size) :
    sub64 a b = a - b := by
  have h64 : u64size = 18446744073709551616 := by norm_num [u64size]
  unfold sub64
  rw [h64] at ha ⊢
  omega

theorem VISUALIZATION_SCALE_pos : 0 < VISUALIZATION_SCALE := by
  norm_num [VISUALIZATION_SCALE]

/-- C5: on timestamps at least `begin` (where the `u64` subtraction does
not wrap), the projection satisfies
`find_x x = ((x - begin) - idx) / visible_scale * W`, maps `begin` itself
to `-idx / visible_scale * W`, and is a strictly increasing affine
function of the timestamp: differences scale exactly by
`W / visible_scale`. -/
theorem find_x_affine (bg : Nat) (idx W : ℚ) (hW : 0 < W) (x y : Nat)
    (hbx : bg ≤ x) (hxy : x < y) (hy : y < u64size) :
    find_x bg idx W x = (((x : ℚ) - bg) - idx) / VISUALIZATION_SCALE * W ∧
    find_x bg idx W bg = -idx / VISUALIZATION_SCALE * W ∧
    find_x bg idx W y - find_x bg idx W x
      = ((y : ℚ) - x) / VISUALIZATION_SCALE * W ∧
    find_x bg idx W x < find_x bg idx W y := by
  have hx : x < u64size := lt_trans hxy hy
  have hby : bg ≤ y := le_trans hbx (le_of_lt hxy)
  have e1 : sub64 x bg = x - bg := sub64_eq_of_le x bg hbx hx
  have e2 : sub64 y bg = y - bg := sub64_eq_of_le y bg hby hy
  have e0 : sub64 bg bg = bg - bg :=
    sub64_eq_of_le bg bg le_rfl (lt_of_le_of_lt hbx hx)
  have c1 : find_x bg idx W x = (((x : ℚ) - bg) - idx) / VISUALIZATION_SCALE * W := by
    unfold find_x
    rw [e1, Nat.cast_sub hbx]
  have c2 : find_x bg idx W bg = -idx / VISUALIZATION_SCALE * W := by
    unfold find_x
    rw [e0, Nat.sub_self]
    push_cast
    ring
  have c3 : find_x bg idx W y - find_x bg idx W x
      = ((y : ℚ) - x) / VISUALIZATION_SCALE * W := by
    unfold find_x
    rw [e1, e2, Nat.cast_sub hbx, Nat.cast_sub hby]
    ring
  refine ⟨c1, c2, c3, ?_⟩
  have hyx : (x : ℚ) < (y : ℚ) := by exact_mod_cast hxy
  have hpos : 0 < ((y : ℚ) - x) / VISUALIZATION_SCALE * W :=
    mul_pos (div_pos (sub_pos.mpr hyx) VISUALIZATION_SCALE_pos) hW
  linarith [c3]

/-- Witness for C5 at `begin = 0, idx = 0, W = 1, x = 1, y = 2`. -/
theorem find_x_affine_witness :
    find_x 0 0 1 1 = (((1 : ℚ) : ℚ) - (0 : Nat)) / VISUALIZATION_SCALE * 1 ∧
    find_x 0 0 1 0 = -(0 : ℚ) / VISUALIZATION_SCALE * 1 ∧
    find_x 0 0 1 2 - find_x 0 0 1 1 = (((2 : Nat) : ℚ) - ((1 : Nat) : ℚ)) / VISUALIZATION_SCALE * 1 ∧
    find_x 0 0 1 1 < find_x 0 0 1 2 := by
  have h := find_x_affine 0 0 1 (by norm_num) 1 2 (Nat.zero_le 1) (by norm_num)
    (by norm_num [u64size])
  simpa using h

/-- C6 (Scenario A): from the initial state, `FrameStart("DP-1", 1000)`,
`FrameRepaintStart("DP-1", 1000)`, `FrameRepaintEnd("DP-1", 5000)` (with
the code's threshold `T = 10^9 > 4000`) leave pending exactly
`[FrameBoundary(1000, 0), RepaintRegion(1000, 5000, 0)]` and frozen
empty; the `FrameRepaintStart` appends no shape and only records the
output's `last_repaint_start`. -/
theorem scenario_a :
    (RepaintLoop.new.process [Message.FrameStart "DP-1" 1000,
        Message.FrameRepaint "DP-1" 1000,
        Message.FrameRepaintDone "DP-1" 5000]).pending_shapes
      = [Shape.FrameBoundary 1000 0, Shape.RepaintRegion 1000 5000 0] ∧
    (RepaintLoop.new.process [Message.FrameStart "DP-1" 1000,
        Message.FrameRepaint "DP-1" 1000,
        Message.FrameRepaintDone "DP-1" 5000]).shapes = [] ∧
    (RepaintLoop.new.process [Message.FrameStart "DP-1" 1000,
        Message.FrameRepaint "DP-1" 1000]).pending_shapes
      = (RepaintLoop.new.process [Message.FrameStart "DP-1" 1000]).pending_shapes ∧
    (RepaintLoop.new.process [Message.FrameStart "DP-1" 1000,
        Message.FrameRepaint "DP-1" 1000]).outputs
      = [{ name := "DP-1", last_repaint_start := 1000 }] := by
  refine ⟨?_, ?_, ?_, ?_⟩ <;> decide

theorem position_some_spec {α : Type} (p : α → Bool) (l : List α) (i : Nat)
    (h : position p l = some i) : ∃ a, l[i]? = some a ∧ p a = true := by
  induction l generalizing i with
  | nil => simp [position] at h
  | cons b l ih =>
    by_cases hb : p b = true
    · simp only [position, hb, if_true, Option.some.injEq] at h
      exact ⟨b, by rw [← h]; simp, hb⟩
    · simp only [Bool.not_eq_true] at hb
      simp only [position, hb, Bool.false_eq_true, if_false,
        Option.map_eq_some'] at h
      obtain ⟨j, hj, hij⟩ := h
      obtain ⟨a, ha, hpa⟩ := ih j hj
      refine ⟨a, ?_, hpa⟩
      rw [← hij]
      simpa using ha

theorem output_idx_outputs_cases (s : RepaintLoop) (o' : String) :
    (s.output_idx o').2.outputs = s.outputs ∨
    (s.output_idx o').2.outputs
      = s.outputs ++ [{ name := o', last_repaint_start := 0 }] := by
  unfold RepaintLoop.output_idx
  cases position (fun x => o' == x.name) s.outputs with
  | none => right; rfl
  | some i => left; rfl

theorem surface_idx_outputs_cases (s : RepaintLoop) (id : Nat) (o' : String) :
    (s.surface_idx id o').2.outputs = s.outputs ∨
    (s.surface_idx id o').2.outputs
      = s.outputs ++ [{ name := o', last_repaint_start := 0 }] := by
  unfold RepaintLoop.surface_idx
  cases position (fun x => x.index == id) s.surfaces with
  | some i => left; rfl
  | none => exact output_idx_outputs_cases s o'

theorem output_idx_name_at (s : RepaintLoop) (o' : String) :
    ∀ a, (s.output_idx o').2.outputs[(s.output_idx o').1]? = some a →
      a.name = o' := by
  cases hpos : position (fun x => o' == x.name) s.outputs with
  | some i =>
    have hsome : s.output_idx o' = (i, s) := by
      unfold RepaintLoop.output_idx
      rw [hpos]
    intro a ha
    rw [hsome] at ha
    obtain ⟨b, hb, hpb⟩ := position_some_spec _ _ _ hpos
    have hab : some b = some a := by rw [← hb, ← ha]
    cases hab
    exact (eq_of_beq hpb).symm
  | none =>
    have hnone : s.output_idx o' =
        (s.outputs.length,
         { s with outputs := s.outputs ++ [{ name := o', last_repaint_start := 0 }] }) := by
      unfold RepaintLoop.output_idx
      rw [hpos]
    intro a ha
    rw [hnone] at ha
    have ha' : (s.outputs ++ [{ name := o', last_repaint_start := 0 }])[s.outputs.length]?
        = some a := ha
    rw [List.getElem?_concat_length] at ha'
    cases ha'
    rfl

theorem inv_extend (l : List OutputState) (out o' : String)
    (hinv : ∀ o ∈ l, o.name = out → o.last_repaint_start = 0) :
    ∀ o ∈ l ++ [{ name := o', last_repaint_start := 0 }],
      o.name = out → o.last_repaint_start = 0 := by
  intro o ho hn
  rcases List.mem_append.mp ho with h1 | h2
  · exact hinv o h1 hn
  · simp only [List.mem_singleton] at h2
    rw [h2]

theorem inv_after_output_idx (s : RepaintLoop) (out o' : String)
    (hinv : ∀ o ∈ s.outputs, o.name = out → o.last_repaint_start = 0) :
    ∀ o ∈ (s.output_idx o').2.outputs, o.name = out → o.last_repaint_start = 0 := by
  rcases output_idx_outputs_cases s o' with hc | hc <;> rw [hc]
  · exact hinv
  · exact inv_extend s.outputs out o' hinv

theorem setLastRepaintStart_inv (l : List OutputState) (i t : Nat) (out : String)
    (hinv : ∀ o ∈ l, o.name = out → o.last_repaint_start = 0)
    (hname : ∀ a, l[i]? = some a → a.name ≠ out) :
    ∀ o ∈ setLastRepaintStart l i t, o.name = out → o.last_repaint_start = 0 := by
  induction l generalizing i with
  | nil =>
    intro o ho
    simp [setLastRepaintStart] at ho
  | cons b l ih =>
    cases i with
    | zero =>
      intro o ho hn
      simp only [setLastRepaintStart] at ho
      rcases List.mem_cons.mp ho with rfl | hmem
      · exact absurd hn (hname b (by simp))
      · exact hinv o (List.mem_cons_of_mem b hmem) hn
    | succ n =>
      intro o ho hn
      simp only [setLastRepaintStart] at ho
      rcases List.mem_cons.mp ho with rfl | hmem
      · exact hinv o (List.mem_cons_self o l) hn
      · exact ih n (fun u hu => hinv u (List.mem_cons_of_mem b hu))
          (fun a ha => hname a (by simpa using ha)) o hmem hn

theorem handle_message_outputs (s : RepaintLoop) (m : Message) :
    (s.handle_message m).outputs = (s.apply_event m).outputs := by
  simp only [RepaintLoop.handle_message]
  by_cases h : (s.apply_event m).shapes = [] ∧
      MAX_TIME_PERIOD ≤ (s.apply_event m).current_pending_window
  · rw [if_pos h]
  · rw [if_neg h]

theorem no_repaint_inv_step (s : RepaintLoop) (out : String) (m : Message)
    (hinv : ∀ o ∈ s.outputs, o.name = out → o.last_repaint_start = 0)
    (hm : ∀ t', m ≠ .FrameRepaint out t') :
    ∀ o ∈ (s.handle_message m).outputs, o.name = out → o.last_repaint_start = 0 := by
  intro o ho hn
  rw [handle_message_outputs] at ho
  cases m with
  | FrameStart o' t =>
    have he : (s.apply_event (.FrameStart o' t)).outputs
        = (s.output_idx o').2.outputs := rfl
    rw [he] at ho
    exact inv_after_output_idx s out o' hinv o ho hn
  | FrameRepaintDone o' t =>
    have he : (s.apply_event (.FrameRepaintDone o' t)).outputs
        = (s.output_idx o').2.outputs := rfl
    rw [he] at ho
    exact inv_after_output_idx s out o' hinv o ho hn
  | SurfaceCommit id o' t =>
    have he : (s.apply_event (.SurfaceCommit id o' t)).outputs
        = (s.surface_idx id o').2.outputs := rfl
    rw [he] at ho
    rcases surface_idx_outputs_cases s id o' with hc | hc <;> rw [hc] at ho
    · exact hinv o ho hn
    · exact inv_extend s.outputs out o' hinv o ho hn
  | FrameRepaint o' t =>
    have hne : o' ≠ out := fun heq => (hm t) (by rw [heq])
    have he : (s.apply_event (.FrameRepaint o' t)).outputs
        = setLastRepaintStart (s.output_idx o').2.outputs (s.output_idx o').1 t := rfl
    rw [he] at ho
    exact setLastRepaintStart_inv _ _ _ _ (inv_after_output_idx s out o' hinv)
      (fun a ha => by rw [output_idx_name_at s o' a ha]; exact hne) o ho hn
  | Refresh =>
    exact hinv o ho hn
  | SliderChanged v =>
    exact hinv o ho hn
  | PeriodicRefreshChanged v =>
    exact hinv o ho hn

theorem no_repaint_inv_trace (ms : List Message) (out : String) (s : RepaintLoop)
    (hinv : ∀ o ∈ s.outputs, o.name = out → o.last_repaint_start = 0)
    (hms : ∀ t', Message.FrameRepaint out t' ∉ ms) :
    ∀ o ∈ (s.process ms).outputs, o.name = out → o.last_repaint_start = 0 := by
  induction ms generalizing s with
  | nil => exact hinv
  | cons m rest ih =>
    have hm : ∀ t', m ≠ .FrameRepaint out t' :=
      fun t' heq => hms t' (heq ▸ List.mem_cons_self m rest)
    exact ih (s.handle_message m) (no_repaint_inv_step s out m hinv hm)
      (fun t' hr => hms t' (List.mem_cons_of_mem m hr))

/-- C7: after any message history containing no `FrameRepaintStart` for
an output, processing `FrameRepaintEnd(output, t)` appends
`RepaintRegion(0, t, idx)` — a region anchored at time `0` — to the
pending buffer; the handler is total, so this is no error path. -/
theorem repaint_end_without_start (ms : List Message) (out : String) (t : Nat)
    (hms : ∀ t', Message.FrameRepaint out t' ∉ ms) :
    ((RepaintLoop.new.process ms).apply_event (.FrameRepaintDone out t)).pending_shapes
      = (RepaintLoop.new.process ms).pending_shapes
        ++ [Shape.RepaintRegion 0 t
              ((RepaintLoop.new.process ms).output_idx out).1] := by
  have hinv : ∀ o ∈ (RepaintLoop.new.process ms).outputs,
      o.name = out → o.last_repaint_start = 0 :=
    no_repaint_inv_trace ms out RepaintLoop.new
      (by intro o ho; simp [RepaintLoop.new] at ho) hms
  have hinv' := inv_after_output_idx (RepaintLoop.new.process ms) out out hinv
  have hstart : lastRepaintStartAt
      ((RepaintLoop.new.process ms).output_idx out).2.outputs
      ((RepaintLoop.new.process ms).output_idx out).1 = 0 := by
    unfold lastRepaintStartAt
    cases ha : ((RepaintLoop.new.process ms).output_idx out).2.outputs[
        ((RepaintLoop.new.process ms).output_idx out).1]? with
    | none => rfl
    | some a =>
      exact hinv' a (List.getElem?_mem ha)
        (output_idx_name_at (RepaintLoop.new.process ms) out a ha)
  simp only [RepaintLoop.apply_event]
  rw [hstart, output_idx_pending]

/-- Witness for C7 at the empty history, output `"A"`, time `7`. -/
theorem repaint_end_without_start_witness :
    ((RepaintLoop.new.process []).apply_event (Message.FrameRepaintDone "A" 7)).pending_shapes
      = (RepaintLoop.new.process []).pending_shapes
        ++ [Shape.RepaintRegion 0 7 ((RepaintLoop.new.process []).output_idx "A").1] :=
  repaint_end_without_start [] "A" 7 (fun t' h => by simp at h)

/-- C8: a frame of the repaint-loop category with an unknown `event` tag
decodes fatally (the source `panic!`s): ingestion emits no events from
that frame on and the aggregator state is left untouched; a frame of any
other category is skipped and ingestion continues with the rest. -/
theorem decode_fatal_unknown_skip_other (f g : Frame) (rest : List Frame)
    (hf : f.category = "repaint-loop") (he : f.event ∉ knownEvents)
    (hg : g.category ≠ "repaint-loop") :
    decodeFrame f = .fatal ∧
    ingest (f :: rest) = ([], true) ∧
    (∀ s : RepaintLoop, s.process (ingest (f :: rest)).1 = s) ∧
    decodeFrame g = .skip ∧
    ingest (g :: rest) = ingest rest := by
  simp only [knownEvents, List.mem_cons, List.not_mem_nil, or_false,
    not_or] at he
  obtain ⟨hne1, hne2, hne3, hne4⟩ := he
  have h1 : decodeFrame f = .fatal := by
    unfold decodeFrame
    rw [if_neg (by rw [hf]; simp)]
    split <;> simp_all
  have h2 : ingest (f :: rest) = ([], true) := by
    simp [ingest, h1]
  have h4 : decodeFrame g = .skip := by
    unfold decodeFrame
    rw [if_pos hg]
  refine ⟨h1, h2, fun s => by rw [h2]; rfl, h4, by simp [ingest, h4]⟩

/-- Witness for C8: the tag `"unknown-thing"` in a repaint-loop frame is
fatal; a frame of another category is skipped. -/
theorem decode_fatal_unknown_skip_other_witness :
    decodeFrame unknownFrame = .fatal ∧
    ingest [unknownFrame, startFrameFrame] = ([], true) ∧
    (∀ s : RepaintLoop, s.process (ingest [unknownFrame, startFrameFrame]).1 = s) ∧
    decodeFrame otherCategoryFrame = .skip ∧
    ingest [otherCategoryFrame, startFrameFrame] = ingest [startFrameFrame] :=
  decode_fatal_unknown_skip_other unknownFrame otherCategoryFrame
    [startFrameFrame] rfl (by decide) (by decide)

theorem sub64_underflow (a b : Nat) (hab : a < b) (hb : b < u64size) :
    (sub64 a b : ℤ) = (a : ℤ) - b + 2 ^ 64 := by
  have h64 : u64size = 18446744073709551616 := by norm_num [u64size]
  unfold sub64
  rw [h64] at hb ⊢
  have h2 : (2 : ℤ) ^ 64 = 18446744073709551616 := by norm_num
  rw [h2]
  omega

theorem sub64_exact (a b : Nat) (hba : b ≤ a) (ha : a < u64size) :
    (sub64 a b : ℤ) = (a : ℤ) - b := by
  rw [sub64_eq_of_le a b hba ha]
  omega

/-- C9: the pending-window computation is the wrapping `u64` difference
`last.right() - first.left()`; whenever the last pending shape's right
end is strictly below the first one's left end the subtraction
underflows (the result is the mathematical difference plus `2^64`), it
is exact exactly under the precondition `first.left() ≤ last.right()`,
and such an inverted pending buffer is reachable from the initial state
(outputs interleave and a degenerate region may end early). -/
theorem pending_window_underflow (s : RepaintLoop)
    (hlt : s.pendingLastRight < s.pendingFirstLeft)
    (hb : s.pendingFirstLeft < u64size) :
    ((s.current_pending_window : ℤ)
        = (s.pendingLastRight : ℤ) - s.pendingFirstLeft + 2 ^ 64) ∧
    (∀ u : RepaintLoop, u.pendingFirstLeft ≤ u.pendingLastRight →
      u.pendingLastRight < u64size →
      (u.current_pending_window : ℤ)
        = (u.pendingLastRight : ℤ) - u.pendingFirstLeft) ∧
    ((RepaintLoop.new.process invertedTrace).pendingLastRight
      < (RepaintLoop.new.process invertedTrace).pendingFirstLeft) := by
  refine ⟨sub64_underflow _ _ hlt hb,
    fun u h1 h2 => sub64_exact _ _ h1 h2, by decide⟩

/-- Witness for C9 at the reachable inverted state itself (first pending
shape starts at 5000, last ends at 100). -/
theorem pending_window_underflow_witness :
    (((RepaintLoop.new.process invertedTrace).current_pending_window : ℤ)
        = ((RepaintLoop.new.process invertedTrace).pendingLastRight : ℤ)
          - (RepaintLoop.new.process invertedTrace).pendingFirstLeft + 2 ^ 64) ∧
    (∀ u : RepaintLoop, u.pendingFirstLeft ≤ u.pendingLastRight →
      u.pendingLastRight < u64size →
      (u.current_pending_window : ℤ)
        = (u.pendingLastRight : ℤ) - u.pendingFirstLeft) ∧
    ((RepaintLoop.new.process invertedTrace).pendingLastRight
      < (RepaintLoop.new.process invertedTrace).pendingFirstLeft) :=
  pending_window_underflow (RepaintLoop.new.process invertedTrace)
    (by decide) (by decide)

/-- C10 counterexample: in a reachable state whose rendered buffer
begins at 5000 and contains the degenerate region `[0, 6000]`, the
region's left endpoint lies strictly below `begin` and wraps, yet the
draw loop still draws the shape (its right endpoint is visible), so a
shape with an endpoint below `begin` is NOT always skipped. -/
theorem drawn_despite_underflow :
    (RepaintLoop.new.process degenerateTrace).drawBuffer
      = [Shape.FrameBoundary 5000 0, Shape.RepaintRegion 0 6000 1] ∧
    bufferBegin (RepaintLoop.new.process degenerateTrace).drawBuffer = 5000 ∧
    Shape.left (Shape.RepaintRegion 0 6000 1)
      < bufferBegin (RepaintLoop.new.process degenerateTrace).drawBuffer ∧
    shapeDrawn (bufferBegin (RepaintLoop.new.process degenerateTrace).drawBuffer)
      0 480 (Shape.RepaintRegion 0 6000 1) = true := by
  have hbegin : bufferBegin (RepaintLoop.new.process degenerateTrace).drawBuffer
      = 5000 := by decide
  refine ⟨by decide, hbegin, by rw [hbegin]; decide, ?_⟩
  rw [hbegin]
  simp only [shapeDrawn, visible, find_x, sub64, u64size, VISUALIZATION_SCALE]
  norm_num

theorem sub64_underflow_q (a b : Nat) (hab : a < b) (hb : b < u64size) :
    (sub64 a b : ℚ) = (a : ℚ) - b + 2 ^ 64 := by
  exact_mod_cast sub64_underflow a b hab hb

/-- C10 amended: the projection subtracts `begin` in wrapping `u64`
arithmetic, so it underflows on any endpoint strictly below `begin` (the
result is the mathematical difference plus `2^64`) and is well-defined
only under the precondition endpoint `≥ begin`; under wrapping, an
underflowing endpoint projects far beyond the right canvas edge and is
not visible, so a shape ALL of whose endpoints underflow is skipped —
but a `RepaintRegion` with only its left endpoint below `begin` can
still be drawn (see the counterexample). -/
theorem projection_underflow (bg x r i : Nat) (idx W : ℚ)
    (hx : x < bg) (hr : r < bg) (hbg : bg ≤ 2 ^ 63)
    (hidx : idx ≤ (MAX_TIME_PERIOD : ℚ)) (hW : 0 < W) :
    ((sub64 x bg : ℤ) = (x : ℤ) - bg + 2 ^ 64) ∧
    W < find_x bg idx W x ∧
    visible W (find_x bg idx W x) = false ∧
    shapeDrawn bg idx W (Shape.Commit x i) = false ∧
    shapeDrawn bg idx W (Shape.FrameBoundary x i) = false ∧
    shapeDrawn bg idx W (Shape.RepaintRegion x r i) = false := by
  have hbg64 : bg < u64size := lt_of_le_of_lt hbg (by norm_num [u64size])
  have key : ∀ z : Nat, z < bg → W < find_x bg idx W z := by
    intro z hz
    have hq : (sub64 z bg : ℚ) = (z : ℚ) - bg + 2 ^ 64 :=
      sub64_underflow_q z bg hz hbg64
    unfold find_x
    rw [hq]
    have hz0 : (0 : ℚ) ≤ (z : ℚ) := Nat.cast_nonneg z
    have hbgq : (bg : ℚ) ≤ 2 ^ 63 := by exact_mod_cast hbg
    have hT : (MAX_TIME_PERIOD : ℚ) = 1000000000 := by norm_num [MAX_TIME_PERIOD]
    rw [hT] at hidx
    have h1 : VISUALIZATION_SCALE < ((z : ℚ) - bg + 2 ^ 64) - idx := by
      have hVS : VISUALIZATION_SCALE = 120000000 := by norm_num [VISUALIZATION_SCALE]
      have h63 : (2 : ℚ) ^ 63 = 9223372036854775808 := by norm_num
      have h64 : (2 : ℚ) ^ 64 = 18446744073709551616 := by norm_num
      rw [hVS]
      linarith
    have hgt1 : 1 < (((z : ℚ) - bg + 2 ^ 64) - idx) / VISUALIZATION_SCALE :=
      (one_lt_div VISUALIZATION_SCALE_pos).mpr h1
    calc W = 1 * W := (one_mul W).symm
      _ < (((z : ℚ) - bg + 2 ^ 64) - idx) / VISUALIZATION_SCALE * W :=
          mul_lt_mul_of_pos_right hgt1 hW
  have hvx : visible W (find_x bg idx W x) = false := by
    unfold visible
    rw [decide_eq_false (not_le.mpr (key x hx))]
    simp
  have hvr : visible W (find_x bg idx W r) = false := by
    unfold visible
    rw [decide_eq_false (not_le.mpr (key r hr))]
    simp
  exact ⟨sub64_underflow x bg hx hbg64, key x hx, hvx,
    by simp [shapeDrawn, hvx], by simp [shapeDrawn, hvx],
    by simp [shapeDrawn, hvx, hvr]⟩

/-- Witness for the amended C10 at `begin = 5000`, endpoints `0` and `1`,
slider `0`, width `480`. -/
theorem projection_underflow_witness :
    ((sub64 0 5000 : ℤ) = ((0 : Nat) : ℤ) - ((5000 : Nat) : ℤ) + 2 ^ 64) ∧
    (480 : ℚ) < find_x 5000 0 480 0 ∧
    visible 480 (find_x 5000 0 480 0) = false ∧
    shapeDrawn 5000 0 480 (Shape.Commit 0 0) = false ∧
    shapeDrawn 5000 0 480 (Shape.FrameBoundary 0 0) = false ∧
    shapeDrawn 5000 0 480 (Shape.RepaintRegion 0 1 0) = false :=
  projection_underflow 5000 0 1 0 0 480 (by norm_num) (by norm_num)
    (by norm_num) (by norm_num [MAX_TIME_PERIOD]) (by norm_num)

end WfDbg
